import Mathlib

/-!
Shallow embedding of the libauth authentication-template compiler and BCH
virtual-machine orchestrator, together with the bech32 address codec, and
proofs about them.

Sources embedded (paths relative to the repository root):
- src/lib/auth/templates/language/reduce.ts  (mergeRanges, reduceScript,
  sampledEvaluateReductionTraceNodes and its helpers)
- src/lib/template/language/resolve.ts       (resolveScriptIdentifier,
  resolveVariableIdentifier, createIdentifierResolver)
- src/lib/auth/instruction-sets/bch/bch-instruction-sets.ts
  (isPayToScriptHash, isWitnessProgram, isPushOperation, evaluate, verify)
- src/lib/address/bech32.ts                  (regroupBits, isBech32)

Modelling conventions: byte strings are `List Nat` (each entry a byte value),
JS arrays are Lean lists in the same order (so a JS stack's top is the LAST
list entry, as in the source's `stack[stack.length - 1]`), an absent
(`undefined`) value is `none`, and a thrown TypeError on an input the wider
system never produces is marked in a comment at the definition. Functions
the repository imports from files that are not part of the six staged source
files (the instruction parser, encodeDataPush, stackItemIsTruthy,
createAuthenticationProgramStateCommon, applyError, compileScript,
disassembleBytecode) are modelled from the specification and carry a doc
comment saying so.
-/

set_option maxHeartbeats 1600000
set_option linter.unusedVariables false

namespace Libauth

/-! ## Ranges (resolve.ts `Range`, reduce.ts `mergeRanges`) -/

/-- Source range, as in resolve.ts: 1-indexed start/end line and column. -/
structure Range where
  startLineNumber : Int
  startColumn : Int
  endLineNumber : Int
  endColumn : Int
  deriving DecidableEq, Repr

/-- Start position of a range as a (line, column) pair. -/
def startPos (r : Range) : Int × Int := (r.startLineNumber, r.startColumn)

/-- End position of a range as a (line, column) pair. -/
def endPos (r : Range) : Int × Int := (r.endLineNumber, r.endColumn)

/-- Build a range from a start and an end position. -/
def mkRange (s e : Int × Int) : Range := ⟨s.1, s.2, e.1, e.2⟩

/-- Strict lexicographic order on (line, column) positions, matching the
comparisons in reduce.ts `mergeRanges` (`<` on the line, then `<` on the
column at equal lines). -/
def posLt (a b : Int × Int) : Bool :=
  decide (a.1 < b.1 ∨ (a.1 = b.1 ∧ a.2 < b.2))

/-- Reflexive lexicographic order on positions (used to state minimality). -/
def posLe (a b : Int × Int) : Prop :=
  a.1 < b.1 ∨ (a.1 = b.1 ∧ a.2 ≤ b.2)

instance (a b : Int × Int) : Decidable (posLe a b) := by
  unfold posLe; infer_instance

/-- One step of reduce.ts `mergeRanges`: keep the smaller start position and
the larger end position, preferring `merged` on ties (the source's strict
comparisons). -/
def mergeStep (merged range : Range) : Range :=
  mkRange
    (if posLt (startPos range) (startPos merged) then startPos range
     else startPos merged)
    (if posLt (endPos merged) (endPos range) then endPos range
     else endPos merged)

/-- reduce.ts `mergeRanges`: `ranges.reduce(step, ranges[0])`. The source
dereferences `ranges[0]` as the initial accumulator, so it throws on an empty
list; the `headD` default marks that unreachable case. -/
def mergeRanges (ranges : List Range) : Range :=
  ranges.foldl mergeStep (ranges.headD (mkRange (0, 0) (0, 0)))

/-- Lexicographic minimum step, preferring the accumulator on ties: the start
component of `mergeStep`. -/
def pmin (a b : Int × Int) : Int × Int := if posLt b a then b else a

/-- Lexicographic maximum step, preferring the accumulator on ties: the end
component of `mergeStep`. -/
def pmax (a b : Int × Int) : Int × Int := if posLt a b then b else a

/-! ## Bech32 (src/lib/address/bech32.ts) -/

namespace Bech32

/-- bech32.ts `bech32CharacterSet`: the 32 symbols of Bech32 encoding. -/
def bech32CharacterSet : List Char := "qpzry9x8gf2tvdw0s3jn54khce6mua7l".data

/-- bech32.ts `bech32CharacterSetIndex`: each Bech32 symbol mapped to its
index in the character set; `none` for any other character (the object lookup
yields `undefined` there). -/
def bech32CharacterSetIndex (c : Char) : Option Nat :=
  if bech32CharacterSet.contains c then some (bech32CharacterSet.indexOf c)
  else none

/-- bech32.ts `BitRegroupingError`. -/
inductive BitRegroupingError where
  | integerOutOfRange
  | hasDisallowedPadding
  | requiresDisallowedPadding
  deriving DecidableEq, Repr

/-- JS `ToUint32`: the value modulo 2^32, as a natural number (the 32-bit
pattern of the operand). -/
def toUint32 (value : Int) : Nat := (value.emod (2 ^ 32)).toNat

/-- JS `ToInt32`: the value modulo 2^32, read back as a signed 32-bit two's
complement integer. -/
def toInt32 (value : Int) : Int :=
  let m := value.emod (2 ^ 32)
  if m < 2 ^ 31 then m else m - 2 ^ 32

/-- Arithmetic (sign-propagating) right shift on integers - floor division
by 2^s - which is what JS `>>` performs on the 32-bit operand. -/
def arithShiftRight (a : Int) (s : Nat) : Int :=
  match a with
  | .ofNat m => .ofNat (m >>> s)
  | .negSucc m => .negSucc (m >>> s)

/-- JS `>>`: the left operand passes through `ToInt32`, the shift count is
masked to its low five bits, and the shift is arithmetic. -/
def jsShr (a : Int) (count : Nat) : Int :=
  arithShiftRight (toInt32 a) (count % 32)

/-- JS `<<`: `ToInt32` of the left operand, shifted by the masked count and
truncated back to 32 bits. -/
def jsShl (a : Int) (count : Nat) : Int :=
  toInt32 (toInt32 a * 2 ^ (count % 32))

/-- JS `&`: bitwise and of the operands' 32-bit patterns, read back as a
signed 32-bit integer. -/
def jsAnd (a b : Int) : Int := toInt32 ((toUint32 a &&& toUint32 b : Nat))

/-- JS `|`: bitwise or of the operands' 32-bit patterns, read back as a
signed 32-bit integer. -/
def jsOr (a b : Int) : Int := toInt32 ((toUint32 a ||| toUint32 b : Nat))

/-- The inner `while (bits >= resultWordLength)` loop of `regroupBits`:
emit `(accumulator >> bits) & maxResultInt` words (JS 32-bit operators)
until fewer than `resultWordLength` bits remain, returning the emitted words
and the remaining bit count. When `resultWordLength = 0` the JS loop never
terminates; this model returns immediately there (no claim is made about
that divergent case). -/
def spillBits (accumulator : Int) (bits resultWordLength : Nat)
    (maxResultInt : Int) : List Int × Nat :=
  if h : 0 < resultWordLength ∧ resultWordLength ≤ bits then
    let rest := spillBits accumulator (bits - resultWordLength)
      resultWordLength maxResultInt
    (jsAnd (jsShr accumulator (bits - resultWordLength)) maxResultInt ::
      rest.1, rest.2)
  else ([], bits)
  termination_by bits
  decreasing_by omega

/-- The main `for` loop of `regroupBits` over the input words: `none` models
returning `BitRegroupingError.integerOutOfRange`. Yields the emitted words,
the final accumulator and the final bit count. The source also rejects
`value < 0`, which a `Nat` input cannot produce. All bitwise operators use
the JS 32-bit semantics (`jsShr`, `jsShl`, `jsOr`, `jsAnd`), so in
particular `value >> sourceWordLength` shifts by `sourceWordLength % 32` and
rejects in-range inputs once `sourceWordLength` reaches 32. -/
def regroupGo (sourceWordLength resultWordLength : Nat) (maxResultInt : Int) :
    List Nat → Int → Nat → List Int → Option (List Int × Int × Nat)
  | [], accumulator, bits, result => some (result, accumulator, bits)
  | value :: rest, accumulator, bits, result =>
    if jsShr (value : Int) sourceWordLength ≠ 0 then none
    else
      let accumulator2 := jsOr (jsShl accumulator sourceWordLength)
        (value : Int)
      let bits2 := bits + sourceWordLength
      let emitted := spillBits accumulator2 bits2 resultWordLength
        maxResultInt
      regroupGo sourceWordLength resultWordLength maxResultInt rest
        accumulator2 emitted.2 (result ++ emitted.1)

/-- bech32.ts `regroupBits`: regroup bits from `sourceWordLength`-bit words
to `resultWordLength`-bit words. `maxResultInt = (1 << resultWordLength) - 1`
with the JS 32-bit shift (the trailing `- 1` is plain number arithmetic). -/
def regroupBits (bin : List Nat) (sourceWordLength resultWordLength : Nat)
    (padding : Bool) : Except BitRegroupingError (List Int) :=
  let maxResultInt : Int := jsShl 1 resultWordLength - 1
  match regroupGo sourceWordLength resultWordLength maxResultInt bin
      0 0 [] with
  | none => .error .integerOutOfRange
  | some (result, accumulator, bits) =>
    if padding then
      if 0 < bits then
        .ok (result ++
          [jsAnd (jsShl accumulator (resultWordLength - bits)) maxResultInt])
      else .ok result
    else if sourceWordLength ≤ bits then .error .hasDisallowedPadding
    else if 0 < jsAnd (jsShl accumulator (resultWordLength - bits))
        maxResultInt then
      .error .requiresDisallowedPadding
    else .ok result

/-- The JS coercion chain in `isBech32`: `Number(last5Bits) & mask` where
`last5Bits` may be `undefined`. `Number(undefined)` is `NaN` and
`ToInt32(NaN)` is `0`, so an absent value contributes `0` to the bitwise
`and`. -/
def jsBitwiseOperand (value : Option Nat) : Nat := value.getD 0

/-- bech32.ts `isBech32`. The source reads
`maybeBech32[maybeBech32.length]`, one PAST the final character, so
`last5Bits` is always `undefined`; the model keeps that out-of-bounds read
(`List.get?` at index `length`). -/
def isBech32 (maybeBech32 : List Char) : Bool :=
  let expectedPadding := (maybeBech32.length * 5) % 8
  let last5Bits : Option Nat :=
    (maybeBech32.get? maybeBech32.length).bind bech32CharacterSetIndex
  let onlyBech32Characters := maybeBech32.all (bech32CharacterSet.contains ·)
  let noExcessivePadding := expectedPadding < 5
  let mask := (1 <<< expectedPadding) - 1
  let expectedPaddingIsZeroFilled := (jsBitwiseOperand last5Bits) &&& mask == 0
  onlyBech32Characters && noExcessivePadding && expectedPaddingIsZeroFilled

end Bech32

/-! ## Instruction parsing (imported by bch-instruction-sets.ts and reduce.ts
from the instruction-sets module, which is not among the staged files) -/

/-- Modelled from the spec: `AuthenticationInstruction` is
`{opcode: byte, data?: bytes}` where data is present for push opcodes only;
a final truncated push carries the malformed marker (spec section 3 and 4.6).
`data` holds the parsed payload (for a malformed final instruction, the
remaining tail). -/
structure AuthenticationInstruction where
  opcode : Nat
  data : List Nat
  malformed : Bool
  deriving DecidableEq, Repr

/-- Modelled from the spec: the loop of `parseBytecode`, bounded by a step
count (each parsed instruction consumes at least its opcode byte, so a step
count equal to the byte count never runs out; the bound keeps the recursion
structural). Each opcode's metadata gives its payload length - fixed
(`OP_PUSHBYTES_1..75`, opcodes 1..75, push their own opcode's number of
bytes) or read from the next 1/2/4 little-endian bytes (`OP_PUSHDATA1/2/4`,
opcodes 76/77/78). If the declared payload (or its length prefix) exceeds
the remaining tail, a final malformed instruction is emitted and parsing
stops (spec section 4.6). -/
def parseBytecodeGo : Nat → List Nat → List AuthenticationInstruction
  | _, [] => []
  | 0, _ => []
  | fuel + 1, opcode :: rest =>
    if 1 ≤ opcode ∧ opcode ≤ 75 then
      if rest.length < opcode then [⟨opcode, rest, true⟩]
      else ⟨opcode, rest.take opcode, false⟩ ::
        parseBytecodeGo fuel (rest.drop opcode)
    else if opcode = 76 then
      match rest with
      | [] => [⟨opcode, [], true⟩]
      | n :: tail =>
        if tail.length < n then [⟨opcode, tail, true⟩]
        else ⟨opcode, tail.take n, false⟩ :: parseBytecodeGo fuel (tail.drop n)
    else if opcode = 77 then
      match rest with
      | n0 :: n1 :: tail =>
        let n := n0 + 256 * n1
        if tail.length < n then [⟨opcode, tail, true⟩]
        else ⟨opcode, tail.take n, false⟩ :: parseBytecodeGo fuel (tail.drop n)
      | _ => [⟨opcode, rest, true⟩]
    else if opcode = 78 then
      match rest with
      | n0 :: n1 :: n2 :: n3 :: tail =>
        let n := n0 + 256 * n1 + 65536 * n2 + 16777216 * n3
        if tail.length < n then [⟨opcode, tail, true⟩]
        else ⟨opcode, tail.take n, false⟩ :: parseBytecodeGo fuel (tail.drop n)
      | _ => [⟨opcode, rest, true⟩]
    else ⟨opcode, [], false⟩ :: parseBytecodeGo fuel rest

/-- Modelled from the spec: `parseBytecode` walks the byte stream, reading
one instruction per step (spec section 4.6). -/
def parseBytecode (bytecode : List Nat) : List AuthenticationInstruction :=
  parseBytecodeGo bytecode.length bytecode

/-- Modelled from the spec: `authenticationInstructionsAreMalformed(list)` is
true exactly when the last element carries the malformed marker (spec
section 4.6). -/
def authenticationInstructionsAreMalformed
    (instructions : List AuthenticationInstruction) : Bool :=
  (instructions.getLast?.map (·.malformed)).getD false

/-! ## BCH orchestrator (src/lib/auth/instruction-sets/bch/bch-instruction-sets.ts) -/

namespace BCH

/-- bch-errors.ts / common errors: the error values the orchestrator and its
pre-checks can place in `state.error`. `other` stands for any error an
individual operation sets during `stateEvaluate` (the claims never inspect
those). -/
inductive AuthenticationErrorBCH where
  | exceededMaximumBytecodeLengthUnlocking
  | malformedUnlockingBytecode
  | exceededMaximumBytecodeLengthLocking
  | malformedLockingBytecode
  | requiresPushOnly
  | malformedP2shBytecode
  | other (message : String)
  deriving DecidableEq, Repr

/-- The BCH program state (spec section 3 `ProgramState`); the opaque
transaction context (`externalState`) does not influence any claim and is
carried as a plain token. -/
structure AuthenticationProgramStateBCH where
  instructions : List AuthenticationInstruction
  ip : Nat
  stack : List (List Nat)
  alternateStack : List (List Nat)
  executionStack : List Bool
  lastCodeSeparator : Int
  operationCount : Nat
  error : Option AuthenticationErrorBCH
  externalState : Nat
  deriving DecidableEq, Repr

/-- The part of `AuthenticationProgramBCH` the orchestrator reads: the
spending input's unlocking bytecode and the source output's locking
bytecode. -/
structure AuthenticationProgramBCH where
  unlockingBytecode : List Nat
  lockingBytecode : List Nat
  externalState : Nat
  deriving DecidableEq, Repr

/-- Modelled from the spec: `createAuthenticationProgramStateCommon` builds a
fresh state over the given instructions and stack with empty alternate and
execution stacks, instruction pointer 0 and no error (spec sections 3
and 4.8, step 2). -/
def createAuthenticationProgramStateCommon
    (instructions : List AuthenticationInstruction)
    (stack : List (List Nat)) (externalState : Nat) :
    AuthenticationProgramStateBCH :=
  { instructions := instructions
    ip := 0
    stack := stack
    alternateStack := []
    executionStack := []
    lastCodeSeparator := -1
    operationCount := 0
    error := none
    externalState := externalState }

/-- Modelled from the spec: `applyError` records the given error on the
state (errors are values; the VM halts once `error` is set). -/
def applyError (error : AuthenticationErrorBCH)
    (state : AuthenticationProgramStateBCH) : AuthenticationProgramStateBCH :=
  { state with error := some error }

/-- Modelled from the spec: `stackItemIsTruthy` - truthy means non-empty and
not all-zero except for an optional negative-zero sign bit (0x80) in the last
byte (spec section 4.8). -/
def stackItemIsTruthy (item : List Nat) : Bool :=
  !(item.dropLast.all (· == 0) && (item.getLastD 0 == 0 || item.getLastD 0 == 128))

/-- `ConsensusCommon.maximumBytecodeLength` (10,000 bytes). -/
def maximumBytecodeLength : Nat := 10000

/-- bch-instruction-sets.ts `isPayToScriptHash`: the instruction list is
exactly `[OP_HASH160 (0xa9), OP_PUSHBYTES_20 (0x14), OP_EQUAL (0x87)]`. -/
def isPayToScriptHash
    (verificationInstructions : List AuthenticationInstruction) : Bool :=
  match verificationInstructions with
  | [i0, i1, i2] => i0.opcode == 169 && i1.opcode == 20 && i2.opcode == 135
  | _ => false

/-- bch-instruction-sets.ts `isWitnessProgram`: length 4..42, first byte
`OP_0` (0) or `OP_1..OP_16` (81..96), second byte + 2 equal to the length.
The source indexes `bytecode[0]` and `bytecode[1]` unconditionally; when the
item is shorter than 2 bytes the JS comparisons against `undefined` are all
false and so is `correctLength`, which the `getD 0` defaults reproduce. -/
def isWitnessProgram (bytecode : List Nat) : Bool :=
  let correctLength :=
    decide (4 ≤ bytecode.length ∧ bytecode.length ≤ 42)
  let validVersionPush :=
    bytecode.getD 0 0 == 0 ||
      (decide (81 ≤ bytecode.getD 0 0) && decide (bytecode.getD 0 0 ≤ 96))
  let correctLengthByte := bytecode.getD 1 0 + 2 == bytecode.length
  correctLength && validVersionPush && correctLengthByte

/-- bch-instruction-sets.ts `isPushOperation`: the opcode is strictly below
`OP_16` (0x60 = 96). -/
def isPushOperation (opcode : Nat) : Bool := opcode < 96

/-- The `unlockingResult` conditional chain of `createInstructionSetBCH`'s
`evaluate` (the five pre-checks; `stateEvaluate` runs only when all pass). -/
def unlockingPrecheckResult
    (stateEvaluate : AuthenticationProgramStateBCH → AuthenticationProgramStateBCH)
    (program : AuthenticationProgramBCH) : AuthenticationProgramStateBCH :=
  let unlockingInstructions := parseBytecode program.unlockingBytecode
  let lockingInstructions := parseBytecode program.lockingBytecode
  let initialState := createAuthenticationProgramStateCommon
    unlockingInstructions [] program.externalState
  if program.unlockingBytecode.length > maximumBytecodeLength then
    applyError .exceededMaximumBytecodeLengthUnlocking initialState
  else if authenticationInstructionsAreMalformed unlockingInstructions then
    applyError .malformedUnlockingBytecode initialState
  else if program.lockingBytecode.length > maximumBytecodeLength then
    applyError .exceededMaximumBytecodeLengthLocking initialState
  else if authenticationInstructionsAreMalformed lockingInstructions then
    applyError .malformedLockingBytecode initialState
  else if initialState.instructions.all (fun i => isPushOperation i.opcode) then
    stateEvaluate initialState
  else applyError .requiresPushOnly initialState

/-- The `lockingResult` of `evaluate`: run the locking instructions with the
unlocking result's stack carried forward, same external state. -/
def lockingResultOf
    (stateEvaluate : AuthenticationProgramStateBCH → AuthenticationProgramStateBCH)
    (program : AuthenticationProgramBCH) : AuthenticationProgramStateBCH :=
  stateEvaluate (createAuthenticationProgramStateCommon
    (parseBytecode program.lockingBytecode)
    (unlockingPrecheckResult stateEvaluate program).stack
    program.externalState)

/-- bch-instruction-sets.ts `createInstructionSetBCH(...).evaluate`, with the
step evaluator (`stateEvaluate`) abstracted exactly as in the source, where
it is a parameter. `cloneStack` deep-copies the stack, which on immutable
lists is the identity; `pop` removes the LAST array element (`?? Uint8Array.of()`
yields the empty item on an empty stack). -/
def evaluate
    (stateEvaluate : AuthenticationProgramStateBCH → AuthenticationProgramStateBCH)
    (program : AuthenticationProgramBCH) : AuthenticationProgramStateBCH :=
  let lockingInstructions := parseBytecode program.lockingBytecode
  let unlockingResult := unlockingPrecheckResult stateEvaluate program
  if unlockingResult.error ≠ none then unlockingResult
  else
    let lockingResult := lockingResultOf stateEvaluate program
    if ¬ isPayToScriptHash lockingInstructions then lockingResult
    else
      let p2shStack := unlockingResult.stack.dropLast
      let p2shScript := (unlockingResult.stack.getLast?).getD []
      if p2shStack = [] ∧ isWitnessProgram p2shScript then lockingResult
      else
        let p2shInstructions := parseBytecode p2shScript
        if authenticationInstructionsAreMalformed p2shInstructions then
          { lockingResult with error := some .malformedP2shBytecode }
        else
          stateEvaluate (createAuthenticationProgramStateCommon
            p2shInstructions p2shStack program.externalState)

/-- bch-instruction-sets.ts `createInstructionSetBCH(...).verify`. -/
def verify (state : AuthenticationProgramStateBCH) : Bool :=
  state.error == none &&
    state.executionStack.length == 0 &&
    state.stack.length == 1 &&
    stackItemIsTruthy (state.stack.getD 0 [])

end BCH

/-! ## Template language: resolver (src/lib/template/language/resolve.ts) -/

namespace Language

/-- reduce.ts / errors.ts `ErrorInformation`: an error message with its
source range. -/
structure ErrorInformation where
  error : String
  range : Libauth.Range
  deriving DecidableEq, Repr

/-- The literal subvariant tag of a resolved bytecode segment. -/
inductive LiteralType where
  | bigIntLiteral
  | hexLiteral
  | utf8Literal
  deriving DecidableEq, Repr

/-- resolve.ts `ResolvedSegment` (a `ResolvedScript` is a list of these):
push and evaluation containers, the four bytecode subvariants with their
annotations, comments and resolution errors. -/
inductive ResolvedSegment where
  | push (value : List ResolvedSegment) (range : Libauth.Range)
  | evaluation (value : List ResolvedSegment) (range : Libauth.Range)
  | literalBytecode (literalType : LiteralType) (value : List Nat)
      (range : Libauth.Range)
  | opcodeBytecode (opcode : String) (value : List Nat) (range : Libauth.Range)
  | variableBytecode (variableId : String) (value : List Nat)
      (range : Libauth.Range)
  | scriptBytecode (script : String) (source : List ResolvedSegment)
      (value : List Nat) (range : Libauth.Range)
  | comment (value : String) (range : Libauth.Range)
  | error (value : String) (range : Libauth.Range)
  deriving Repr

/-- A compiler operation's outcome: resolved bytecode, or a recoverable
error message (the source type `Uint8Array | string`). -/
inductive CompilerOperationResult where
  | bytes (value : List Nat)
  | err (message : String)
  deriving DecidableEq, Repr

/-- A compiler operation. In the source it is
`(identifier, data, environment) => Uint8Array | string`; `data` and
`environment` are constants through one resolution pass, so the model
pre-applies them and keeps the identifier argument. -/
def CompilerOperation : Type := String → CompilerOperationResult

/-- An entry of `environment.operations.<name>`: either a single operation or
a mapping from operation identifiers to operations. -/
inductive OperationsEntry where
  | single (operation : CompilerOperation)
  | byOperationId (operations : List (String × CompilerOperation))

/-- The operation tables of a `CompilationEnvironment`; an absent table is
`none` (the source reads them through optional chaining). -/
structure Operations where
  currentBlockHeight : Option OperationsEntry := none
  currentBlockTime : Option OperationsEntry := none
  signingSerialization : Option OperationsEntry := none
  addressData : Option OperationsEntry := none
  hdKey : Option OperationsEntry := none
  key : Option OperationsEntry := none
  walletData : Option OperationsEntry := none

/-- template-types.ts variable types. -/
inductive VariableType where
  | addressData
  | hdKey
  | key
  | walletData
  deriving DecidableEq, Repr

/-- compiler-types.ts `CompilationEnvironment`, restricted to the tables the
resolver reads. Mappings are association lists looked up by
`List.lookup`. -/
structure CompilationEnvironment where
  opcodes : List (String × List Nat) := []
  templateVariables : List (String × VariableType) := []
  scripts : List (String × String) := []
  sourceScriptIds : Option (List String) := none
  operations : Operations := {}

/-- compile.ts `CompilationResult`, restricted to what
`resolveScriptIdentifier` reads: on success the bytecode (and the
`resolve` field, which `CompilationResultSuccess` does not actually define -
hence an `Option`); on failure the error list. -/
inductive CompilationResult where
  | success (bytecode : List Nat) (resolve : Option (List ResolvedSegment))
  | failure (errors : List ErrorInformation)

/-- The type of compile.ts `compileScript` as `resolveScriptIdentifier`
imports it, with `data` pre-applied (compile.ts is not among the staged
source files, so the recursive compiler stays an explicit parameter;
theorems instantiate it with concrete functions modelled from the spec). -/
def CompileScript : Type := String → CompilationEnvironment → CompilationResult

/-- resolve.ts `attemptCompilerOperation`. -/
def attemptCompilerOperation (identifier : String)
    (matchingOperations : Option OperationsEntry)
    (operationId : Option String) (variableId : String)
    (variableType : String) (operationExample : String := "operation_identifier") :
    CompilerOperationResult :=
  match matchingOperations with
  | none => .err ("The \"" ++ variableId ++ "\" variable type can not be resolved because the \"" ++ variableType ++ "\" operation has not been included in this compiler's CompilationEnvironment.")
  | some (.single operation) => operation identifier
  | some (.byOperationId operations) =>
    match operationId with
    | none => .err ("This \"" ++ variableId ++ "\" variable could not be resolved because this compiler's \"" ++ variableType ++ "\" operations require an operation identifier, e.g. '" ++ variableId ++ "." ++ operationExample ++ "'.")
    | some operationId =>
      match operations.lookup operationId with
      | none => .err ("The identifier \"" ++ identifier ++ "\" could not be resolved because the \"" ++ variableId ++ "." ++ operationId ++ "\" operation is not available to this compiler.")
      | some operation => operation identifier

/-- The outcome of resolve.ts `resolveVariableIdentifier`:
`Uint8Array | string | false`. -/
inductive VariableResolution where
  | bytes (value : List Nat)
  | err (message : String)
  | notVariable

/-- resolve.ts `resolveVariableIdentifier`: split the identifier at the
first `.` (the destructuring of `identifier.split('.')` keeps the first two
parts), dispatch built-ins to their operation tables, otherwise look the
variable up and select the table by its type; an unknown variable id yields
`notVariable` (the source's `false`) so resolution continues. -/
def resolveVariableIdentifier (environment : CompilationEnvironment)
    (identifier : String) : VariableResolution :=
  let parts := identifier.splitOn "."
  let variableId := parts.headD ""
  let operationId := parts.get? 1
  let attempt := fun (matchingOperations : Option OperationsEntry)
      (variableType : String)
      (operationExample : String) =>
    match attemptCompilerOperation identifier matchingOperations operationId
        variableId variableType operationExample with
    | .bytes value => VariableResolution.bytes value
    | .err message => VariableResolution.err message
  if variableId = "current_block_height" then
    attempt environment.operations.currentBlockHeight "currentBlockHeight"
      "operation_identifier"
  else if variableId = "current_block_time" then
    attempt environment.operations.currentBlockTime "currentBlockTime"
      "operation_identifier"
  else if variableId = "signing_serialization" then
    attempt environment.operations.signingSerialization "signingSerialization"
      "version"
  else
    match environment.templateVariables.lookup variableId with
    | none => .notVariable
    | some .addressData =>
      attempt environment.operations.addressData "addressData"
        "operation_identifier"
    | some .hdKey => attempt environment.operations.hdKey "hdKey" "public_key"
    | some .key => attempt environment.operations.key "key" "public_key"
    | some .walletData =>
      attempt environment.operations.walletData "walletData"
        "operation_identifier"

/-- The outcome of resolve.ts `resolveScriptIdentifier`:
`CompilationResultSuccess | string | false`. -/
inductive ScriptResolution where
  | compiled (bytecode : List Nat) (resolve : Option (List ResolvedSegment))
  | err (message : String)
  | notScript

/-- The circular-dependency message of `resolveScriptIdentifier`. -/
def circularDependencyMessage (identifier : String)
    (sourceScriptIds : List String) : String :=
  "A circular dependency was encountered. Script \"" ++ identifier ++ "\" relies on itself to be generated. (Parent scripts: " ++ String.intercalate ", " sourceScriptIds ++ ")"

/-- The wrapped message `resolveScriptIdentifier` builds from a failed nested
compilation. -/
def compilationErrorMessage (identifier : String)
    (errors : List ErrorInformation) : String :=
  "Compilation error in resolved script, \"" ++ identifier ++ "\": " ++ String.intercalate ", " (errors.map (fun e => e.error ++ " [" ++ toString e.range.startLineNumber ++ ", " ++ toString e.range.startColumn ++ "]"))

/-- resolve.ts `resolveScriptIdentifier`. Note the cycle guard tests whether
the PARENT identifier is among `environment.sourceScriptIds`; only then does
it fail instead of recursing into `compileScript` with the extended id
list. -/
def resolveScriptIdentifier (compileScript : CompileScript)
    (environment : CompilationEnvironment) (identifier : String)
    (parentIdentifier : Option String) : ScriptResolution :=
  if (environment.scripts.lookup identifier).isNone then .notScript
  else if h : parentIdentifier.isSome ∧ environment.sourceScriptIds.isSome ∧
      (environment.sourceScriptIds.getD []).contains
        (parentIdentifier.getD "") then
    .err (circularDependencyMessage identifier
      (environment.sourceScriptIds.getD []))
  else
    let extended := { environment with
      sourceScriptIds := some ((environment.sourceScriptIds.getD []) ++
        (match parentIdentifier with | none => [] | some p => [p])) }
    match compileScript identifier extended with
    | .success bytecode resolve => .compiled bytecode resolve
    | .failure errors => .err (compilationErrorMessage identifier errors)

/-- resolve.ts `IdentifierResolutionType` / `IdentifierResolutionErrorType`
success tags. -/
inductive IdentifierResolutionType where
  | opcode
  | variable
  | script
  deriving DecidableEq, Repr

/-- resolve.ts error tags. -/
inductive IdentifierResolutionErrorType where
  | unknown
  | variable
  | script
  deriving DecidableEq, Repr

/-- The union returned by an `IdentifierResolutionFunction`: the two success
shapes (opcode/variable, and script with its resolved source) and the two
error shapes (variable/unknown, and script with its script id). -/
inductive IdentifierResolutionResult where
  | success (bytecode : List Nat) (type : IdentifierResolutionType)
  | scriptSuccess (bytecode : List Nat)
      (source : Option (List ResolvedSegment))
  | failure (error : String) (type : IdentifierResolutionErrorType)
  | scriptFailure (error : String) (scriptId : String)

/-- resolve.ts `createIdentifierResolver`: first-match resolution over
environment opcodes, then variables, then scripts, with the unknown-identifier
failure when all three miss. -/
def createIdentifierResolver (compileScript : CompileScript)
    (environment : CompilationEnvironment) (scriptId : Option String)
    (identifier : String) : IdentifierResolutionResult :=
  match environment.opcodes.lookup identifier with
  | some opcodeResult => .success opcodeResult .opcode
  | none =>
    match resolveVariableIdentifier environment identifier with
    | .err message => .failure message .variable
    | .bytes value => .success value .variable
    | .notVariable =>
      match resolveScriptIdentifier compileScript environment identifier
          scriptId with
      | .err message => .scriptFailure message identifier
      | .compiled bytecode resolve => .scriptSuccess bytecode resolve
      | .notScript =>
        .failure ("Unknown identifier '" ++ identifier ++ "'.") .unknown

/-! ## Template language: reducer (src/lib/auth/templates/language/reduce.ts) -/

/-- The part of a VM `ProgramState` the reducer reads: the stack
(`StackState`) and the optional error. The wider program state carries more
fields, none of which reduce.ts touches. -/
structure EvalState where
  stack : List (List Nat) := []
  error : Option String := none
  deriving DecidableEq, Repr

/-- `vm.stateDebug`: the list of intermediate program states of an
evaluation (the only virtual-machine capability reduce.ts uses). -/
def StateDebugFunction : Type := EvalState → List EvalState

/-- The `createState` parameter of `reduceScript`: builds a fresh program
state from an instruction list. -/
def CreateStateFunction : Type := List AuthenticationInstruction → EvalState

/-- An evaluation sample: a source range paired with the program state
reached there (`undefined` - `none` - when the trace is too short). -/
def TraceSample : Type := Libauth.Range × Option EvalState

/-- reduce.ts `ScriptReductionTraceNode` and its extensions, collapsed into
one node shape: leaf nodes carry no `source` (here the empty list) and no
`samples` (`none`); container nodes carry `source`; evaluation nodes also
carry `samples`. -/
inductive ScriptReductionTraceNode where
  | mk (bytecode : List Nat) (range : Libauth.Range)
      (errors : Option (List ErrorInformation))
      (source : List ScriptReductionTraceNode)
      (samples : Option (List TraceSample))

/-- The node's reduced bytecode. -/
def ScriptReductionTraceNode.bytecode : ScriptReductionTraceNode → List Nat
  | .mk bytecode _ _ _ _ => bytecode

/-- The node's source range. -/
def ScriptReductionTraceNode.range : ScriptReductionTraceNode → Libauth.Range
  | .mk _ range _ _ _ => range

/-- The node's error list, when present. -/
def ScriptReductionTraceNode.errors :
    ScriptReductionTraceNode → Option (List ErrorInformation)
  | .mk _ _ errors _ _ => errors

/-- The node's child nodes (empty for leaf nodes). -/
def ScriptReductionTraceNode.source :
    ScriptReductionTraceNode → List ScriptReductionTraceNode
  | .mk _ _ _ source _ => source

/-- The node's evaluation samples, when present. -/
def ScriptReductionTraceNode.samples :
    ScriptReductionTraceNode → Option (List TraceSample)
  | .mk _ _ _ _ samples => samples

/-- reduce.ts `InstructionAggregation`. -/
structure InstructionAggregation where
  instructions : List AuthenticationInstruction
  lastIp : Nat
  range : Libauth.Range
  deriving Repr

/-- reduce.ts `InstructionAggregationResult`: the aggregations plus, on
failure, the unparsed remainder (`success` is `incomplete.isNone`). -/
structure InstructionAggregationResult where
  aggregations : List InstructionAggregation
  incomplete : Option (List Nat × Libauth.Range)

/-- reduce.ts `aggregatedParseReductionTraceNodes`: group consecutive node
bytecodes until each group parses without a malformed tail; a group that
still ends malformed is carried into the next node's bytecode, and a
remainder at the end makes the result unsuccessful. -/
def aggregatedParseReductionTraceNodes
    (nodes : List ScriptReductionTraceNode) : InstructionAggregationResult :=
  let step := fun
      (acc : List InstructionAggregation × Nat ×
        Option (List Nat × Libauth.Range))
      (node : ScriptReductionTraceNode) =>
    let aggregations := acc.1
    let ip := acc.2.1
    let incomplete := acc.2.2
    let bytecode := match incomplete with
      | none => node.bytecode
      | some i => i.1 ++ node.bytecode
    let range := match incomplete with
      | none => node.range
      | some i => Libauth.mergeRanges [i.2, node.range]
    let parsed := parseBytecode bytecode
    if parsed = [] then (aggregations ++ [⟨[], ip, range⟩], ip, none)
    else if ¬ authenticationInstructionsAreMalformed parsed then
      (aggregations ++ [⟨parsed, ip + parsed.length, range⟩],
        ip + parsed.length, none)
    else (aggregations, ip, some (bytecode, range))
  let final := nodes.foldl step ([], 0, none)
  ⟨final.1, final.2.2⟩

/-- reduce.ts `InstructionAggregationEvaluationResult` (errors empty exactly
on success). -/
structure InstructionAggregationEvaluationResult where
  samples : List TraceSample
  errors : List ErrorInformation
  success : Bool

/-- The message interpolation `${errorSample.state.error}`: an undefined
error prints as the string `undefined` in JS. -/
def renderOptionalError (error : Option String) : String :=
  error.getD "undefined"

/-- reduce.ts `evaluateInstructionAggregations`: run the VM trace over the
concatenated non-empty aggregations and sample it at each aggregation's
`lastIp - 1`; the first sample without a state marks the failure, reported at
the previous sample when one exists. -/
def evaluateInstructionAggregations
    (aggregations : List InstructionAggregation) (vm : StateDebugFunction)
    (getState : CreateStateFunction) :
    InstructionAggregationEvaluationResult :=
  let nonEmptyAggregations :=
    aggregations.filter (fun a => a.instructions.length > 0)
  let instructions := (nonEmptyAggregations.map (·.instructions)).flatten
  let breakpoints := nonEmptyAggregations.map (fun a => (a.lastIp, a.range))
  let trace := vm (getState instructions)
  let samples := breakpoints.map (fun breakpoint =>
    ((breakpoint.2 : Libauth.Range),
      if breakpoint.1 = 0 then none else trace.get? (breakpoint.1 - 1)))
  -- `trace[breakpoint.ip - 1]`: JS index -1 (ip = 0) or past the end reads undefined
  let firstInvalidSample := samples.findIdx? (fun sample => sample.2.isNone)
  match firstInvalidSample with
  | none => ⟨samples, [], true⟩
  | some i =>
    let errorSample := match
        (if i = 0 then none else samples.get? (i - 1)) with
      | some sample => some sample
      | none => samples.get? i
    -- `samples[firstInvalidSample - 1] ?? samples[firstInvalidSample]`
    match errorSample with
    | none => ⟨samples, [], true⟩
    | some sample =>
      ⟨samples,
        [⟨(match sample.2 with
          | none =>
            "Failed to reduce evaluation: vm.debug produced no valid program states."
          | some state =>
            "Failed to reduce evaluation: " ++ renderOptionalError state.error),
          sample.1⟩], false⟩

/-- Modelled from the spec: `disassembleBytecode` is the pretty-print
inverse of the instruction parser, used only inside an error message here
(spec section 4.6); no claim depends on the rendering, which this model keeps
as the space-separated byte values. -/
def disassembleBytecode (bytecode : List Nat) : String :=
  String.intercalate " " (bytecode.map (fun b => toString b))

/-- reduce.ts `SampledEvaluationResult` (errors empty exactly on success). -/
structure SampledEvaluationResult where
  bytecode : List Nat
  samples : List TraceSample
  errors : List ErrorInformation
  success : Bool

/-- reduce.ts `sampledEvaluateReductionTraceNodes`: aggregate and parse the
nodes, evaluate the aggregations, and on overall success return the final
sample's top stack item (a fresh state's when there is no sample; the empty
byte string when that stack is empty). On an empty aggregation list the
source's `parsed.aggregations[0].range` fallback throws - unreachable from
`reduceScript`, which never passes an empty node list; the `headD` default
marks it. On success every sample state is defined, so the `getD` defaults in
the stack read are never used. -/
def sampledEvaluateReductionTraceNodes (nodes : List ScriptReductionTraceNode)
    (vm : StateDebugFunction) (getState : CreateStateFunction) :
    SampledEvaluationResult :=
  let parsed := aggregatedParseReductionTraceNodes nodes
  let evaluated := evaluateInstructionAggregations parsed.aggregations vm
    getState
  if parsed.incomplete.isNone ∧ evaluated.success then
    let samples := if evaluated.samples.length > 0 then evaluated.samples
      else [((parsed.aggregations.headD
          ⟨[], 0, Libauth.mkRange (0, 0) (0, 0)⟩).range, some (getState []))]
    let lastSample := samples.getLastD (Libauth.mkRange (0, 0) (0, 0), none)
    let lastStackItem := (lastSample.2.getD {}).stack.getLast?
    let evaluationResult := lastStackItem.getD []
    ⟨evaluationResult, samples, [], true⟩
  else
    let parseErrors := match parsed.incomplete with
      | none => []
      | some remaining =>
        [⟨"A sample is malformed and cannot be evaluated: " ++
          disassembleBytecode remaining.1, remaining.2⟩]
    ⟨[], evaluated.samples,
      parseErrors ++ (if evaluated.success then [] else evaluated.errors),
      false⟩

/-- Modelled from the spec: `encodeDataPush` - the minimal Bitcoin push
encoding: empty payload becomes `OP_0`; a single byte 1..16 becomes
`OP_1..OP_16` (0x51..0x60); payloads of 1..75 bytes use
`OP_PUSHBYTES_{len}`; longer ones `OP_PUSHDATA1/2/4` with a little-endian
length (spec section 4.5). -/
def encodeDataPush (data : List Nat) : List Nat :=
  if data.length = 0 then [0]
  else if data.length = 1 ∧ 1 ≤ data.headD 0 ∧ data.headD 0 ≤ 16 then
    [80 + data.headD 0]
  else if data.length ≤ 75 then data.length :: data
  else if data.length ≤ 255 then [76, data.length] ++ data
  else if data.length ≤ 65535 then
    [77, data.length % 256, data.length / 256] ++ data
  else
    [78, data.length % 256, data.length / 256 % 256,
      data.length / 65536 % 256, data.length / 16777216 % 256] ++ data

/-- One step of the final `source.reduce` of `reduceScript`: append the
segment's bytecode and range, and merge the optional error lists (present in
the accumulator as soon as one segment carries one). -/
def assembleStep
    (all : List (List Nat) × List Libauth.Range ×
      Option (List ErrorInformation))
    (segment : ScriptReductionTraceNode) :
    List (List Nat) × List Libauth.Range × Option (List ErrorInformation) :=
  (all.1 ++ [segment.bytecode], all.2.1 ++ [segment.range],
    match all.2.2, segment.errors with
    | none, none => none
    | a, b => some ((a.getD []) ++ (b.getD [])))

/-- The final assembly of `reduceScript`: concatenate the child bytecodes
(`flattenBinArray`), merge the child ranges, and concatenate the child error
lists when at least one child carries one. -/
def assembleNode (source : List ScriptReductionTraceNode) :
    ScriptReductionTraceNode :=
  let reduction := source.foldl assembleStep ([], [], none)
  ⟨reduction.1.flatten, Libauth.mergeRanges reduction.2.1, reduction.2.2,
    source, none⟩

mutual

/-- The `compiledScript.map(segment => ...)` pass of reduce.ts
`reduceScript`, one child node per resolved segment. -/
def reduceSegments (script : List ResolvedSegment)
    (vm : Option StateDebugFunction) (createState : Option CreateStateFunction) :
    List ScriptReductionTraceNode :=
  match script with
  | [] => []
  | segment :: rest =>
    reduceSegment segment vm createState :: reduceSegments rest vm createState

/-- One segment of reduce.ts `reduceScript`'s `map`: bytecode segments pass
their bytes through; `push` wraps the reduced child in `encodeDataPush`
(unless the child list is empty, which short-circuits to an empty node);
`evaluation` reduces the child, evaluates the aggregated instruction stream
and takes the final sample's top stack item, erroring when the VM or the
state factory is missing; comments reduce to empty nodes and resolution
errors to error nodes. -/
def reduceSegment (segment : ResolvedSegment)
    (vm : Option StateDebugFunction) (createState : Option CreateStateFunction) :
    ScriptReductionTraceNode :=
  match segment with
  | .literalBytecode _ value range => ⟨value, range, none, [], none⟩
  | .opcodeBytecode _ value range => ⟨value, range, none, [], none⟩
  | .variableBytecode _ value range => ⟨value, range, none, [], none⟩
  | .scriptBytecode _ _ value range => ⟨value, range, none, [], none⟩
  | .push value range =>
    if value.isEmpty then ⟨[], range, none, [], none⟩
    else
      let push := assembleNode (reduceSegments value vm createState)
      ⟨encodeDataPush push.bytecode, range, push.errors, [push], none⟩
  | .evaluation value range =>
    if value.isEmpty then ⟨[], range, none, [], none⟩
    else
      match vm, createState with
      | some v, some f =>
        let reductionTrace := assembleNode (reduceSegments value (some v)
          (some f))
        let evaluated := sampledEvaluateReductionTraceNodes
          reductionTrace.source v f
        let errors := (reductionTrace.errors.getD []) ++
          (if evaluated.success then [] else evaluated.errors)
        if errors.length > 0 then
          ⟨[], range, some errors, [reductionTrace], some evaluated.samples⟩
        else
          ⟨evaluated.bytecode, range, none, [reductionTrace],
            some evaluated.samples⟩
      | _, _ =>
        ⟨[], range,
          some [⟨"Both a VM and a createState method are required to reduce evaluations.",
            range⟩], [], none⟩
  | .comment _ range => ⟨[], range, none, [], none⟩
  | .error value range =>
    ⟨[], range,
      some [⟨"Tried to reduce a BTL script with resolution errors: " ++ value,
        range⟩], [], none⟩

end

/-- reduce.ts `reduceScript`: map every resolved segment to its node, then
assemble the container node (concatenated bytecode, merged range,
concatenated errors). -/
def reduceScript (compiledScript : List ResolvedSegment)
    (vm : Option StateDebugFunction) (createState : Option CreateStateFunction) :
    ScriptReductionTraceNode :=
  assembleNode (reduceSegments compiledScript vm createState)

/-- Modelled from the spec: a concrete stand-in for compile.ts
`compileScript` (compile.ts is not among the staged source files) used to
instantiate theorems at concrete inputs - it compiles every script to the
single byte 0x51 (`OP_1`) and succeeds, as the spec's pipeline does for a
one-hex-literal script source (spec sections 4.1, 4.4 and 4.5). -/
def constantCompileScript : CompileScript :=
  fun _ _ => .success [81] none

end Language

/-! ## Theorems: range merging (claim about reduce.ts `mergeRanges`) -/

theorem mergeStep_eq (m r : Range) :
    mergeStep m r = mkRange (pmin (startPos m) (startPos r))
      (pmax (endPos m) (endPos r)) := rfl

theorem startPos_mkRange (s e : Int × Int) : startPos (mkRange s e) = s := rfl

theorem endPos_mkRange (s e : Int × Int) : endPos (mkRange s e) = e := rfl

theorem range_ext (a b : Range) (hs : startPos a = startPos b)
    (he : endPos a = endPos b) : a = b := by
  cases a; cases b
  simp [startPos, endPos, Prod.ext_iff] at hs he
  simp [hs.1, hs.2, he.1, he.2]

theorem posLt_irrefl (a : Int × Int) : posLt a a = false := by
  simp [posLt]

theorem posLe_refl (a : Int × Int) : posLe a a := by simp [posLe]

theorem posLe_trans {a b c : Int × Int} (hab : posLe a b) (hbc : posLe b c) :
    posLe a c := by
  obtain ⟨a1, a2⟩ := a; obtain ⟨b1, b2⟩ := b; obtain ⟨c1, c2⟩ := c
  simp only [posLe] at *
  omega

theorem posLe_antisymm {a b : Int × Int} (hab : posLe a b) (hba : posLe b a) :
    a = b := by
  obtain ⟨a1, a2⟩ := a; obtain ⟨b1, b2⟩ := b
  simp only [posLe] at *
  simp only [Prod.mk.injEq]
  omega

theorem posLt_posLe {a b : Int × Int} (h : posLt a b = true) : posLe a b := by
  obtain ⟨a1, a2⟩ := a; obtain ⟨b1, b2⟩ := b
  simp only [posLt, decide_eq_true_eq] at h
  simp only [posLe]
  omega

theorem not_posLt_posLe {a b : Int × Int} (h : posLt a b = false) :
    posLe b a := by
  obtain ⟨a1, a2⟩ := a; obtain ⟨b1, b2⟩ := b
  simp only [posLt, decide_eq_false_iff_not] at h
  simp only [posLe]
  omega

theorem pmin_cases (a b : Int × Int) : pmin a b = a ∨ pmin a b = b := by
  unfold pmin; split <;> simp

theorem pmax_cases (a b : Int × Int) : pmax a b = a ∨ pmax a b = b := by
  unfold pmax; split <;> simp

theorem pmin_le_left (a b : Int × Int) : posLe (pmin a b) a := by
  unfold pmin; split
  · exact posLt_posLe (by assumption)
  · exact posLe_refl a

theorem pmin_le_right (a b : Int × Int) : posLe (pmin a b) b := by
  unfold pmin; split
  · exact posLe_refl b
  · exact not_posLt_posLe (by simp_all)

theorem pmax_ge_left (a b : Int × Int) : posLe a (pmax a b) := by
  unfold pmax; split
  · exact posLt_posLe (by assumption)
  · exact posLe_refl a

theorem pmax_ge_right (a b : Int × Int) : posLe b (pmax a b) := by
  unfold pmax; split
  · exact posLe_refl b
  · exact not_posLt_posLe (by simp_all)

theorem pmin_self (a : Int × Int) : pmin a a = a := by
  unfold pmin; split <;> rfl

theorem pmax_self (a : Int × Int) : pmax a a = a := by
  unfold pmax; split <;> rfl

theorem mergeStep_self (r : Range) : mergeStep r r = r := by
  rw [mergeStep_eq, pmin_self, pmax_self]
  exact range_ext _ _ (startPos_mkRange _ _) (endPos_mkRange _ _)

theorem startPos_foldl_mergeStep (l : List Range) (i : Range) :
    startPos (l.foldl mergeStep i) = (l.map startPos).foldl pmin (startPos i) := by
  induction l generalizing i with
  | nil => rfl
  | cons r t ih =>
    simp only [List.foldl_cons, List.map_cons, ih, mergeStep_eq,
      startPos_mkRange]

theorem endPos_foldl_mergeStep (l : List Range) (i : Range) :
    endPos (l.foldl mergeStep i) = (l.map endPos).foldl pmax (endPos i) := by
  induction l generalizing i with
  | nil => rfl
  | cons r t ih =>
    simp only [List.foldl_cons, List.map_cons, ih, mergeStep_eq,
      endPos_mkRange]

theorem foldl_pmin_spec (l : List (Int × Int)) (i : Int × Int) :
    (l.foldl pmin i = i ∨ l.foldl pmin i ∈ l) ∧ posLe (l.foldl pmin i) i ∧
      ∀ x ∈ l, posLe (l.foldl pmin i) x := by
  induction l generalizing i with
  | nil => exact ⟨Or.inl rfl, posLe_refl i, by simp⟩
  | cons a t ih =>
    obtain ⟨hmem, hle, hall⟩ := ih (pmin i a)
    simp only [List.foldl_cons]
    refine ⟨?_, ?_, ?_⟩
    · rcases hmem with h | h
      · rcases pmin_cases i a with h2 | h2
        · exact Or.inl (h.trans h2)
        · exact Or.inr (by rw [h, h2]; exact List.mem_cons_self _ _)
      · exact Or.inr (List.mem_cons_of_mem a h)
    · exact posLe_trans hle (pmin_le_left i a)
    · intro x hx
      rcases List.mem_cons.mp hx with h | h
      · rw [h]; exact posLe_trans hle (pmin_le_right i a)
      · exact hall x h

theorem foldl_pmax_spec (l : List (Int × Int)) (i : Int × Int) :
    (l.foldl pmax i = i ∨ l.foldl pmax i ∈ l) ∧ posLe i (l.foldl pmax i) ∧
      ∀ x ∈ l, posLe x (l.foldl pmax i) := by
  induction l generalizing i with
  | nil => exact ⟨Or.inl rfl, posLe_refl i, by simp⟩
  | cons a t ih =>
    obtain ⟨hmem, hle, hall⟩ := ih (pmax i a)
    simp only [List.foldl_cons]
    refine ⟨?_, ?_, ?_⟩
    · rcases hmem with h | h
      · rcases pmax_cases i a with h2 | h2
        · exact Or.inl (h.trans h2)
        · exact Or.inr (by rw [h, h2]; exact List.mem_cons_self _ _)
      · exact Or.inr (List.mem_cons_of_mem a h)
    · exact posLe_trans (pmax_ge_left i a) hle
    · intro x hx
      rcases List.mem_cons.mp hx with h | h
      · rw [h]; exact posLe_trans (pmax_ge_right i a) hle
      · exact hall x h

theorem mergeRanges_cons (r : Range) (rs : List Range) :
    mergeRanges (r :: rs) = rs.foldl mergeStep r := by
  simp [mergeRanges, List.foldl_cons, mergeStep_self]

theorem mergeRanges_cons_start (r : Range) (rs : List Range) :
    startPos (mergeRanges (r :: rs)) ∈ (r :: rs).map startPos ∧
      ∀ p ∈ (r :: rs).map startPos, posLe (startPos (mergeRanges (r :: rs))) p := by
  rw [mergeRanges_cons, startPos_foldl_mergeStep]
  obtain ⟨hmem, hle, hall⟩ := foldl_pmin_spec (rs.map startPos) (startPos r)
  refine ⟨?_, ?_⟩
  · rcases hmem with h | h
    · rw [h]; exact List.mem_cons_self _ _
    · simp only [List.map_cons]
      exact List.mem_cons_of_mem _ h
  · intro p hp
    rcases List.mem_cons.mp hp with h | h
    · exact h ▸ hle
    · exact hall p h

theorem mergeRanges_cons_end (r : Range) (rs : List Range) :
    endPos (mergeRanges (r :: rs)) ∈ (r :: rs).map endPos ∧
      ∀ p ∈ (r :: rs).map endPos, posLe p (endPos (mergeRanges (r :: rs))) := by
  rw [mergeRanges_cons, endPos_foldl_mergeStep]
  obtain ⟨hmem, hle, hall⟩ := foldl_pmax_spec (rs.map endPos) (endPos r)
  refine ⟨?_, ?_⟩
  · rcases hmem with h | h
    · rw [h]; exact List.mem_cons_self _ _
    · simp only [List.map_cons]
      exact List.mem_cons_of_mem _ h
  · intro p hp
    rcases List.mem_cons.mp hp with h | h
    · exact h ▸ hle
    · exact hall p h

theorem min_unique {l : List (Int × Int)} {m₁ m₂ : Int × Int}
    (h₁ : m₁ ∈ l) (h₂ : m₂ ∈ l) (b₁ : ∀ x ∈ l, posLe m₁ x)
    (b₂ : ∀ x ∈ l, posLe m₂ x) : m₁ = m₂ :=
  posLe_antisymm (b₁ m₂ h₂) (b₂ m₁ h₁)

theorem max_unique {l : List (Int × Int)} {m₁ m₂ : Int × Int}
    (h₁ : m₁ ∈ l) (h₂ : m₂ ∈ l) (b₁ : ∀ x ∈ l, posLe x m₁)
    (b₂ : ∀ x ∈ l, posLe x m₂) : m₁ = m₂ :=
  posLe_antisymm (b₂ m₁ h₁) (b₁ m₂ h₂)

theorem mergeRanges_pair (a b : Range) :
    mergeRanges [a, b] = mergeStep a b := by
  simp [mergeRanges, List.foldl_cons, mergeStep_self]

theorem mergeRanges_singleton (r : Range) : mergeRanges [r] = r := by
  rw [mergeRanges_cons]
  rfl

theorem mergeRanges_append_assoc (r : Range) (rs : List Range) (s : Range)
    (ss : List Range) :
    mergeRanges ((r :: rs) ++ s :: ss) =
      mergeRanges [mergeRanges (r :: rs), mergeRanges (s :: ss)] := by
  have hL : (r :: rs) ++ s :: ss = r :: (rs ++ s :: ss) := by simp
  have hLs := mergeRanges_cons_start r (rs ++ s :: ss)
  have hLe := mergeRanges_cons_end r (rs ++ s :: ss)
  have hAs := mergeRanges_cons_start r rs
  have hAe := mergeRanges_cons_end r rs
  have hBs := mergeRanges_cons_start s ss
  have hBe := mergeRanges_cons_end s ss
  rw [hL] at *
  apply range_ext
  · rw [mergeRanges_pair, mergeStep_eq, startPos_mkRange]
    apply min_unique (l := (r :: (rs ++ s :: ss)).map startPos) hLs.1 _ hLs.2
    · intro x hx
      rw [List.map_cons, List.map_append] at hx
      rcases List.mem_cons.mp hx with h | h
      · exact h ▸ posLe_trans (pmin_le_left _ _)
          (hAs.2 (startPos r) (by simp))
      · rcases List.mem_append.mp h with h2 | h2
        · exact posLe_trans (pmin_le_left _ _) (hAs.2 x (by simp [h2]))
        · exact posLe_trans (pmin_le_right _ _) (hBs.2 x h2)
    · rcases pmin_cases (startPos (mergeRanges (r :: rs)))
        (startPos (mergeRanges (s :: ss))) with h | h <;> rw [h]
      · rcases List.mem_map.mp hAs.1 with ⟨y, hy, hxy⟩
        exact List.mem_map.mpr ⟨y, by simp at hy ⊢; tauto, hxy⟩
      · rcases List.mem_map.mp hBs.1 with ⟨y, hy, hxy⟩
        exact List.mem_map.mpr ⟨y, by simp at hy ⊢; tauto, hxy⟩
  · rw [mergeRanges_pair, mergeStep_eq, endPos_mkRange]
    apply max_unique (l := (r :: (rs ++ s :: ss)).map endPos) hLe.1 _ hLe.2
    · intro x hx
      rw [List.map_cons, List.map_append] at hx
      rcases List.mem_cons.mp hx with h | h
      · exact h ▸ posLe_trans (hAe.2 (endPos r) (by simp))
          (pmax_ge_left _ _)
      · rcases List.mem_append.mp h with h2 | h2
        · exact posLe_trans (hAe.2 x (by simp [h2])) (pmax_ge_left _ _)
        · exact posLe_trans (hBe.2 x h2) (pmax_ge_right _ _)
    · rcases pmax_cases (endPos (mergeRanges (r :: rs)))
        (endPos (mergeRanges (s :: ss))) with h | h <;> rw [h]
      · rcases List.mem_map.mp hAe.1 with ⟨y, hy, hxy⟩
        exact List.mem_map.mpr ⟨y, by simp at hy ⊢; tauto, hxy⟩
      · rcases List.mem_map.mp hBe.1 with ⟨y, hy, hxy⟩
        exact List.mem_map.mpr ⟨y, by simp at hy ⊢; tauto, hxy⟩

theorem mergeRanges_perm (rs ss : List Range) (h : rs.Perm ss) :
    mergeRanges rs = mergeRanges ss := by
  cases rs with
  | nil =>
    rw [List.Perm.eq_nil h.symm]
  | cons r t =>
    cases ss with
    | nil => exact absurd (List.Perm.eq_nil h) (by simp)
    | cons s u =>
      have hmaps : ((r :: t).map startPos).Perm ((s :: u).map startPos) :=
        h.map _
      have hmape : ((r :: t).map endPos).Perm ((s :: u).map endPos) := h.map _
      have hA := mergeRanges_cons_start r t
      have hB := mergeRanges_cons_start s u
      have hAe := mergeRanges_cons_end r t
      have hBe := mergeRanges_cons_end s u
      apply range_ext
      · exact min_unique (hmaps.mem_iff.mp hA.1) hB.1
          (fun x hx => hA.2 x (hmaps.mem_iff.mpr hx)) hB.2
      · exact max_unique (hmape.mem_iff.mp hAe.1) hBe.1
          (fun x hx => hAe.2 x (hmape.mem_iff.mpr hx)) hBe.2

/-- C8: `mergeRanges` of a one-element list is that range; for every
non-empty list of ranges the merged start position is the lexicographic
(line, then column) minimum of all start positions and the merged end
position the lexicographic maximum of all end positions; the operation is
associative (merging a concatenation equals merging the two merges) and
invariant under permutation of the input list. -/
theorem mergeRanges_minimum_maximum_assoc_perm :
    (∀ r : Range, mergeRanges [r] = r) ∧
    (∀ (r : Range) (rs : List Range),
      (startPos (mergeRanges (r :: rs)) ∈ (r :: rs).map startPos ∧
        ∀ p ∈ (r :: rs).map startPos,
          posLe (startPos (mergeRanges (r :: rs))) p) ∧
      (endPos (mergeRanges (r :: rs)) ∈ (r :: rs).map endPos ∧
        ∀ p ∈ (r :: rs).map endPos,
          posLe p (endPos (mergeRanges (r :: rs))))) ∧
    (∀ (r : Range) (rs : List Range) (s : Range) (ss : List Range),
      mergeRanges ((r :: rs) ++ s :: ss) =
        mergeRanges [mergeRanges (r :: rs), mergeRanges (s :: ss)]) ∧
    (∀ rs ss : List Range, rs.Perm ss → mergeRanges rs = mergeRanges ss) :=
  ⟨mergeRanges_singleton,
    fun r rs => ⟨mergeRanges_cons_start r rs, mergeRanges_cons_end r rs⟩,
    mergeRanges_append_assoc, mergeRanges_perm⟩

/-! ## Theorems: bech32 -/

/-- C9: the claim says `isBech32` returns true on an all-bech32-character
string with padding bits only if the low `(length * 5) mod 8` bits of the
FINAL character's 5-bit value are zero. The code instead reads
`maybeBech32[maybeBech32.length]` - one past the end - so the padding check
always passes: on the failing input "qp" the final character `p` has value 1,
the two padding bits are `1 & 3 = 1 ≠ 0`, and yet `isBech32` returns true.
This contradicts the function's own documentation ("it must be padded
correctly, i.e. it must encode a multiple of 8 bits"). -/
theorem isBech32_padding_check_out_of_bounds :
    Bech32.isBech32 "qp".data = true ∧
    Bech32.bech32CharacterSetIndex 'p' = some 1 ∧
    ("qp".data.length * 5) % 8 = 2 ∧
    1 &&& ((1 <<< 2) - 1) ≠ 0 := by decide

theorem toInt32_of_small (n : Int) (h0 : 0 ≤ n) (h : n < 2 ^ 31) :
    Bech32.toInt32 n = n := by
  unfold Bech32.toInt32
  have hm : n.emod (2 ^ 32) = n := Int.emod_eq_of_lt h0 (by omega)
  simp only [hm]
  rw [if_pos h]

theorem jsShr_small_eq_zero (v sourceWordLength : Nat)
    (h31 : sourceWordLength ≤ 31) (hv : v < 2 ^ sourceWordLength) :
    Bech32.jsShr (v : Int) sourceWordLength = 0 := by
  unfold Bech32.jsShr
  have hpow : (2 : Int) ^ sourceWordLength ≤ 2 ^ 31 :=
    pow_le_pow_right₀ (by norm_num) h31
  have hsmall : (v : Int) < 2 ^ 31 := by
    have : (v : Int) < 2 ^ sourceWordLength := by exact_mod_cast hv
    omega
  rw [toInt32_of_small _ (by positivity) hsmall,
    Nat.mod_eq_of_lt (by omega)]
  show Bech32.arithShiftRight (Int.ofNat v) sourceWordLength = 0
  unfold Bech32.arithShiftRight
  have : v >>> sourceWordLength = 0 := by
    rw [Nat.shiftRight_eq_div_pow]
    exact Nat.div_eq_of_lt hv
  simp [this]

theorem toUint32_maxResultInt (resultWordLength : Nat)
    (h1 : 1 ≤ resultWordLength) (h2 : resultWordLength ≤ 31) :
    Bech32.toUint32 (Bech32.jsShl 1 resultWordLength - 1) =
      2 ^ resultWordLength - 1 := by
  interval_cases resultWordLength <;> decide

theorem jsAnd_mask_bounds (x : Int) (resultWordLength : Nat)
    (h1 : 1 ≤ resultWordLength) (h2 : resultWordLength ≤ 31) :
    0 ≤ Bech32.jsAnd x (Bech32.jsShl 1 resultWordLength - 1) ∧
    Bech32.jsAnd x (Bech32.jsShl 1 resultWordLength - 1) <
      2 ^ resultWordLength := by
  unfold Bech32.jsAnd
  rw [toUint32_maxResultInt resultWordLength h1 h2]
  have hle : Bech32.toUint32 x &&& (2 ^ resultWordLength - 1) ≤
      2 ^ resultWordLength - 1 := Nat.and_le_right
  have hpow : 2 ^ resultWordLength ≤ 2 ^ 31 :=
    Nat.pow_le_pow_right (by omega) h2
  have hpos : 0 < 2 ^ resultWordLength := Nat.pos_pow_of_pos _ (by omega)
  have hsmall : ((Bech32.toUint32 x &&& (2 ^ resultWordLength - 1) : Nat) :
      Int) < 2 ^ 31 := by
    have : Bech32.toUint32 x &&& (2 ^ resultWordLength - 1) < 2 ^ 31 := by
      omega
    exact_mod_cast this
  rw [toInt32_of_small _ (by positivity) hsmall]
  constructor
  · positivity
  · have : Bech32.toUint32 x &&& (2 ^ resultWordLength - 1) <
        2 ^ resultWordLength := by omega
    exact_mod_cast this

theorem spillBits_bounds (resultWordLength : Nat)
    (h1 : 1 ≤ resultWordLength) (h2 : resultWordLength ≤ 31) :
    ∀ (bits : Nat) (acc : Int) (x : Int),
      x ∈ (Bech32.spillBits acc bits resultWordLength
        (Bech32.jsShl 1 resultWordLength - 1)).1 →
      0 ≤ x ∧ x < 2 ^ resultWordLength := by
  intro bits
  induction bits using Nat.strong_induction_on with
  | _ bits ih =>
    intro acc x hx
    rw [Bech32.spillBits] at hx
    split at hx
    · rename_i h
      simp only [List.mem_cons] at hx
      rcases hx with h2x | h2x
      · rw [h2x]
        exact jsAnd_mask_bounds _ _ h1 h2
      · exact ih (bits - resultWordLength) (by omega) acc x h2x
    · simp at hx

theorem regroupGo_ok (sourceWordLength resultWordLength : Nat)
    (hsrc : sourceWordLength ≤ 31) (h1 : 1 ≤ resultWordLength)
    (h2 : resultWordLength ≤ 31) (bin : List Nat) :
    ∀ (acc : Int) (bits : Nat) (result : List Int),
      (∀ v ∈ bin, v < 2 ^ sourceWordLength) →
      (∀ x ∈ result, 0 ≤ x ∧ x < 2 ^ resultWordLength) →
      ∃ out acc2 bits2,
        Bech32.regroupGo sourceWordLength resultWordLength
          (Bech32.jsShl 1 resultWordLength - 1) bin acc bits result =
          some (out, acc2, bits2) ∧
        ∀ x ∈ out, 0 ≤ x ∧ x < 2 ^ resultWordLength := by
  induction bin with
  | nil => exact fun acc bits result hv hr => ⟨result, acc, bits, rfl, hr⟩
  | cons v rest ih =>
    intro acc bits result hv hr
    have hv0 : v < 2 ^ sourceWordLength := hv v (by simp)
    have hshift : Bech32.jsShr (v : Int) sourceWordLength = 0 :=
      jsShr_small_eq_zero v sourceWordLength hsrc hv0
    rw [Bech32.regroupGo, if_neg (by simp [hshift])]
    exact ih _ _ _ (fun w hw => hv w (by simp [hw])) (fun x hx => by
      rcases List.mem_append.mp hx with h | h
      · exact hr x h
      · exact spillBits_bounds resultWordLength h1 h2 _ _ x h)

/-- C10 counterexample: at `sourceWordLength = 32` the JS shift count wraps
to 0 (`value >> 32` is `value >> 0`), so the source rejects the in-range
input `[1]` (1 < 2^32) with `integerOutOfRange` - the claim, quantified over
every word length, is false of the program. -/
theorem regroupBits_shift_wrap_counterexample :
    (∀ v ∈ [1], v < 2 ^ 32) ∧
    Bech32.regroupBits [1] 32 5 true = .error .integerOutOfRange := by
  exact ⟨by decide, rfl⟩

/-- C10 (amended): for word lengths below the JS 32-bit shift wrap
(`sourceWordLength ≤ 31`, `1 ≤ resultWordLength ≤ 31` - the repository uses
(8, 5) and (5, 8)), every input list whose elements all lie below
`2 ^ sourceWordLength` makes `regroupBits` with `padding = true` succeed (it
never returns a `BitRegroupingError`), and every element of the returned
list lies in `[0, 2 ^ resultWordLength)`. The lower bound on
`resultWordLength` also excludes the configuration where the source's inner
`while` loop never terminates; at `sourceWordLength ≥ 32` the claim fails
(see the counterexample). -/
theorem regroupBits_padding_ok_and_bounded
    (bin : List Nat) (sourceWordLength resultWordLength : Nat)
    (hsrc : sourceWordLength ≤ 31) (hres1 : 1 ≤ resultWordLength)
    (hres2 : resultWordLength ≤ 31)
    (hin : ∀ v ∈ bin, v < 2 ^ sourceWordLength) :
    ∃ out, Bech32.regroupBits bin sourceWordLength resultWordLength true =
      .ok out ∧ ∀ x ∈ out, 0 ≤ x ∧ x < 2 ^ resultWordLength := by
  obtain ⟨out, acc2, bits2, hgo, hbound⟩ := regroupGo_ok sourceWordLength
    resultWordLength hsrc hres1 hres2 bin 0 0 [] hin (by simp)
  by_cases hb : 0 < bits2
  · refine ⟨out ++ [Bech32.jsAnd
      (Bech32.jsShl acc2 (resultWordLength - bits2))
      (Bech32.jsShl 1 resultWordLength - 1)], ?_, ?_⟩
    · simp [Bech32.regroupBits, hgo, hb]
    · intro x hx
      rcases List.mem_append.mp hx with h | h
      · exact hbound x h
      · simp only [List.mem_singleton] at h
        rw [h]
        exact jsAnd_mask_bounds _ _ hres1 hres2
  · refine ⟨out, ?_, fun x hx => hbound x hx⟩
    simp [Bech32.regroupBits, hgo, hb]

/-- Witness for C10's amended theorem at the concrete input [255, 0]
regrouped from 8-bit to 5-bit words. -/
theorem regroupBits_padding_ok_and_bounded_witness :
    (8 ≤ 31 ∧ 1 ≤ 5 ∧ 5 ≤ 31 ∧ ∀ v ∈ [255, 0], v < 2 ^ 8) ∧
    ∃ out, Bech32.regroupBits [255, 0] 8 5 true = .ok out ∧
      ∀ x ∈ out, 0 ≤ x ∧ x < 2 ^ 5 :=
  ⟨⟨by decide, by decide, by decide, by decide⟩,
    regroupBits_padding_ok_and_bounded [255, 0] 8 5 (by decide) (by decide)
      (by decide) (by decide)⟩

/-! ## Theorems: BCH orchestrator -/

theorem stackItemIsTruthy_iff (item : List Nat) :
    BCH.stackItemIsTruthy item = true ↔
      item ≠ [] ∧ ¬ ((∀ b ∈ item.dropLast, b = 0) ∧
        (item.getLastD 0 = 0 ∨ item.getLastD 0 = 128)) := by
  unfold BCH.stackItemIsTruthy
  cases item with
  | nil => simp
  | cons a t =>
    simp only [ne_eq, reduceCtorEq, not_false_eq_true, true_and]
    constructor
    · intro h hc
      obtain ⟨hall, hlast⟩ := hc
      have hallb : (a :: t).dropLast.all (· == 0) = true :=
        List.all_eq_true.mpr (fun b hb => beq_iff_eq.mpr (hall b hb))
      have hlastb : ((a :: t).getLastD 0 == 0 ||
          (a :: t).getLastD 0 == 128) = true := by
        rcases hlast with h1 | h1 <;>
          simp [List.getLastD_eq_getLast?] at h1 ⊢ <;> simp [h1]
      rw [hallb, hlastb] at h
      simp at h
    · intro h
      by_cases hallb : (a :: t).dropLast.all (· == 0) = true
      · have hall : ∀ b ∈ (a :: t).dropLast, b = 0 :=
          fun b hb => beq_iff_eq.mp (List.all_eq_true.mp hallb b hb)
        have hlastne : ¬ ((a :: t).getLastD 0 = 0 ∨
            (a :: t).getLastD 0 = 128) := fun hb => h ⟨hall, hb⟩
        push_neg at hlastne
        simp only [List.getLastD_eq_getLast?] at hlastne
        simp [hallb, hlastne.1, hlastne.2]
      · simp [Bool.eq_false_iff.mpr hallb]

/-- C3: for every final program state, the BCH `verify` predicate accepts if
and only if the state's error is undefined, its execution stack is empty, its
stack holds exactly one item, and that item is truthy: non-empty and not
all-zero except for an optional negative-zero sign bit (0x80) in the last
byte. -/
theorem verify_accepts_iff (state : BCH.AuthenticationProgramStateBCH) :
    BCH.verify state = true ↔
      state.error = none ∧ state.executionStack = [] ∧
      ∃ item, state.stack = [item] ∧ item ≠ [] ∧
        ¬ ((∀ b ∈ item.dropLast, b = 0) ∧
          (item.getLastD 0 = 0 ∨ item.getLastD 0 = 128)) := by
  unfold BCH.verify
  simp only [Bool.and_eq_true, beq_iff_eq, List.length_eq_zero]
  constructor
  · rintro ⟨⟨⟨herr, hexec⟩, hlen⟩, htruthy⟩
    refine ⟨herr, hexec, ?_⟩
    match hstack : state.stack with
    | [item] =>
      rw [hstack] at htruthy
      exact ⟨item, rfl, (stackItemIsTruthy_iff item).mp (by simpa using htruthy)⟩
    | [] => rw [hstack] at hlen; simp at hlen
    | a :: b :: t => rw [hstack] at hlen; simp at hlen
  · rintro ⟨herr, hexec, item, hstack, hne, hnz⟩
    rw [hstack]
    exact ⟨⟨⟨herr, hexec⟩, by simp⟩,
      by simpa using (stackItemIsTruthy_iff item).mpr ⟨hne, hnz⟩⟩

/-- C2: the BCH orchestrator's pre-checks run in this exact order with the
first failure winning - unlocking bytecode over 10,000 bytes, malformed
unlocking instructions, locking bytecode over 10,000 bytes, malformed locking
instructions, then a non-push unlocking instruction (opcode not strictly
below OP_16 = 0x60); only when all five checks pass does `stateEvaluate` run
the unlocking script, and a pre-check failure is returned unchanged by
`evaluate`. -/
theorem unlockingPrecheck_order_first_failure_wins
    (stateEvaluate : BCH.AuthenticationProgramStateBCH →
      BCH.AuthenticationProgramStateBCH)
    (program : BCH.AuthenticationProgramBCH) :
    ((BCH.unlockingPrecheckResult stateEvaluate program).error ≠ none →
      BCH.evaluate stateEvaluate program =
        BCH.unlockingPrecheckResult stateEvaluate program) ∧
    BCH.unlockingPrecheckResult stateEvaluate program =
      (let unlockingInstructions := parseBytecode program.unlockingBytecode
       let lockingInstructions := parseBytecode program.lockingBytecode
       let initialState := BCH.createAuthenticationProgramStateCommon
         unlockingInstructions [] program.externalState
       if 10000 < program.unlockingBytecode.length then
         BCH.applyError .exceededMaximumBytecodeLengthUnlocking initialState
       else if authenticationInstructionsAreMalformed unlockingInstructions
         then BCH.applyError .malformedUnlockingBytecode initialState
       else if 10000 < program.lockingBytecode.length then
         BCH.applyError .exceededMaximumBytecodeLengthLocking initialState
       else if authenticationInstructionsAreMalformed lockingInstructions then
         BCH.applyError .malformedLockingBytecode initialState
       else if ∀ instruction ∈ unlockingInstructions,
           instruction.opcode < 96 then
         stateEvaluate initialState
       else BCH.applyError .requiresPushOnly initialState) := by
  constructor
  · intro herr
    unfold BCH.evaluate
    rw [if_pos herr]
  unfold BCH.unlockingPrecheckResult BCH.maximumBytecodeLength
  simp only [gt_iff_lt]
  by_cases h1 : 10000 < program.unlockingBytecode.length
  · simp [h1]
  · simp only [if_neg h1]
    by_cases h2 : authenticationInstructionsAreMalformed
        (parseBytecode program.unlockingBytecode) = true
    · simp [h2]
    · simp only [Bool.not_eq_true] at h2
      simp only [h2, Bool.false_eq_true, if_false]
      by_cases h3 : 10000 < program.lockingBytecode.length
      · simp [h3]
      · simp only [if_neg h3]
        by_cases h4 : authenticationInstructionsAreMalformed
            (parseBytecode program.lockingBytecode) = true
        · simp [h4]
        · simp only [Bool.not_eq_true] at h4
          simp only [h4, Bool.false_eq_true, if_false]
          by_cases h5 : ∀ instruction ∈ parseBytecode program.unlockingBytecode,
              instruction.opcode < 96
          · rw [if_pos ?_, if_pos h5]
            show (parseBytecode program.unlockingBytecode).all _ = true
            simp only [List.all_eq_true, BCH.isPushOperation,
              decide_eq_true_eq]
            exact fun i hi => h5 i hi
          · rw [if_neg ?_, if_neg h5]
            show ¬ (parseBytecode program.unlockingBytecode).all _ = true
            simp only [List.all_eq_true, BCH.isPushOperation,
              decide_eq_true_eq]
            exact h5

theorem isWitnessProgram_iff (b : List Nat) :
    BCH.isWitnessProgram b = true ↔
      (4 ≤ b.length ∧ b.length ≤ 42) ∧
      (b.getD 0 0 = 0 ∨ (81 ≤ b.getD 0 0 ∧ b.getD 0 0 ≤ 96)) ∧
      b.getD 1 0 + 2 = b.length := by
  unfold BCH.isWitnessProgram
  simp only [Bool.and_eq_true, Bool.or_eq_true, decide_eq_true_eq,
    beq_iff_eq]
  tauto

/-- C1: in the BCH orchestrator's `evaluate`, when the locking instructions
are exactly `[OP_HASH160, OP_PUSHBYTES_20, OP_EQUAL]` and the unlocking
evaluation produced no error, the unlocking stack is cloned and its top item
popped as `p2shScript`; if the remaining clone is empty and `p2shScript` has
length between 4 and 42, first byte 0x00 or in [0x51, 0x60], and second byte
plus 2 equal to its length, the locking result is returned unchanged (SegWit
recovery); otherwise `p2shScript` is parsed and, if malformed, the locking
result is returned with the `malformedP2shBytecode` error, else `p2shScript`
is evaluated with the cloned remaining stack. -/
theorem evaluate_p2sh_segwit_recovery
    (stateEvaluate : BCH.AuthenticationProgramStateBCH →
      BCH.AuthenticationProgramStateBCH)
    (program : BCH.AuthenticationProgramBCH)
    (i0 i1 i2 : AuthenticationInstruction)
    (hlock : parseBytecode program.lockingBytecode = [i0, i1, i2])
    (h0 : i0.opcode = 169) (h1 : i1.opcode = 20) (h2 : i2.opcode = 135)
    (herr : (BCH.unlockingPrecheckResult stateEvaluate program).error = none) :
    BCH.evaluate stateEvaluate program =
      (let unlockingResult := BCH.unlockingPrecheckResult stateEvaluate program
       let lockingResult := BCH.lockingResultOf stateEvaluate program
       let p2shStack := unlockingResult.stack.dropLast
       let p2shScript := (unlockingResult.stack.getLast?).getD []
       if p2shStack = [] ∧
           (4 ≤ p2shScript.length ∧ p2shScript.length ≤ 42) ∧
           (p2shScript.getD 0 0 = 0 ∨
             (81 ≤ p2shScript.getD 0 0 ∧ p2shScript.getD 0 0 ≤ 96)) ∧
           p2shScript.getD 1 0 + 2 = p2shScript.length then
         lockingResult
       else if authenticationInstructionsAreMalformed
           (parseBytecode p2shScript) then
         { lockingResult with error := some .malformedP2shBytecode }
       else
         stateEvaluate (BCH.createAuthenticationProgramStateCommon
           (parseBytecode p2shScript) p2shStack program.externalState)) := by
  unfold BCH.evaluate
  rw [hlock]
  have hp2sh : BCH.isPayToScriptHash [i0, i1, i2] = true := by
    simp [BCH.isPayToScriptHash, h0, h1, h2]
  simp only [herr, ne_eq, not_true_eq_false, if_false, not_false_eq_true,
    hp2sh, not_true_eq_false, if_false, if_true, isWitnessProgram_iff]

/-- Witness for C1: an empty unlocking script against the locking script
`OP_HASH160 OP_PUSHBYTES_20 <20 bytes> OP_EQUAL`, with the identity step
evaluator; the P2SH path evaluates the (empty) redeem script against the
empty remaining stack. -/
theorem evaluate_p2sh_segwit_recovery_witness :
    BCH.evaluate (fun s => s)
      ⟨[], [169, 20, 1, 2, 3, 4, 5, 6, 7, 8, 9, 10, 11, 12, 13, 14, 15, 16,
        17, 18, 19, 20, 135], 7⟩ =
      BCH.createAuthenticationProgramStateCommon [] [] 7 := by
  have h := evaluate_p2sh_segwit_recovery (fun s => s)
    ⟨[], [169, 20, 1, 2, 3, 4, 5, 6, 7, 8, 9, 10, 11, 12, 13, 14, 15, 16,
      17, 18, 19, 20, 135], 7⟩
    ⟨169, [], false⟩
    ⟨20, [1, 2, 3, 4, 5, 6, 7, 8, 9, 10, 11, 12, 13, 14, 15, 16, 17, 18,
      19, 20], false⟩
    ⟨135, [], false⟩ (by decide) rfl rfl rfl (by decide)
  exact h.trans (by decide)

/-! ## Theorems: identifier and script resolution -/

/-- C4 counterexample: a resolution state in which the identifier currently
being resolved ("a") is already among the accumulated `sourceScriptIds`, yet
the parent ("b") is not. The claim says resolution must fail with a cycle
error rather than recurse; the source instead recurses into `compileScript`
and returns its success. -/
theorem resolveScriptIdentifier_ignores_resolved_identifier :
    ({ scripts := [("a", "b")], sourceScriptIds := some ["a"] }
        : Language.CompilationEnvironment).sourceScriptIds = some ["a"] ∧
    ("a" : String) ∈ ["a"] ∧
    ({ scripts := [("a", "b")], sourceScriptIds := some ["a"] }
        : Language.CompilationEnvironment).scripts.lookup "a" = some "b" ∧
    Language.resolveScriptIdentifier Language.constantCompileScript
      { scripts := [("a", "b")], sourceScriptIds := some ["a"] } "a"
      (some "b") = .compiled [81] none := by
  refine ⟨rfl, by simp, rfl, ?_⟩
  rfl

/-- C4 (amended): the cycle guard of `resolveScriptIdentifier` tests whether
the PARENT script identifier is among `sourceScriptIds`; when the parent is
in the list (and the identifier names a known script) resolution fails with
the cycle error listing `sourceScriptIds`, and when the parent is not in the
list it recurses into `compileScript` with the extended id list instead -
even when the resolved identifier itself is already in `sourceScriptIds`,
so a cycle is detected from the script one level deeper. -/
theorem resolveScriptIdentifier_parent_cycle_guard
    (compileScript : Language.CompileScript)
    (environment : Language.CompilationEnvironment)
    (identifier parent src : String) (ids : List String)
    (hscript : environment.scripts.lookup identifier = some src)
    (hids : environment.sourceScriptIds = some ids) :
    (parent ∈ ids →
      Language.resolveScriptIdentifier compileScript environment identifier
        (some parent) =
        .err (Language.circularDependencyMessage identifier ids)) ∧
    (parent ∉ ids →
      Language.resolveScriptIdentifier compileScript environment identifier
        (some parent) =
        (match compileScript identifier { environment with
            sourceScriptIds := some (ids ++ [parent]) } with
         | .success bytecode resolve =>
            Language.ScriptResolution.compiled bytecode resolve
         | .failure errors =>
            Language.ScriptResolution.err
              (Language.compilationErrorMessage identifier errors))) := by
  unfold Language.resolveScriptIdentifier
  rw [hscript]
  simp only [hids, Option.isSome_some, Option.isNone_some, Option.getD_some,
    Bool.false_eq_true, if_false, true_and]
  constructor
  · intro hmem
    rw [dif_pos (by simpa using hmem)]
  · intro hmem
    rw [dif_neg (by simpa using hmem)]

/-- Witness for C4's amended theorem, with the two-script cycle environment
`scripts = {a: "b", b: "a"}` mid-resolution: resolving "b" from parent "a"
with accumulated ids ["a", "b"] fails with the cycle error, while a parent
outside the list would recurse. -/
theorem resolveScriptIdentifier_parent_cycle_guard_witness :
    (("a" : String) ∈ ["a", "b"] →
      Language.resolveScriptIdentifier Language.constantCompileScript
        { scripts := [("a", "b"), ("b", "a")],
          sourceScriptIds := some ["a", "b"] } "b" (some "a") =
        .err (Language.circularDependencyMessage "b" ["a", "b"])) ∧
    (("a" : String) ∉ ["a", "b"] →
      Language.resolveScriptIdentifier Language.constantCompileScript
        { scripts := [("a", "b"), ("b", "a")],
          sourceScriptIds := some ["a", "b"] } "b" (some "a") =
        (match Language.constantCompileScript "b"
            { scripts := [("a", "b"), ("b", "a")],
              sourceScriptIds := some (["a", "b"] ++ ["a"]) } with
         | .success bytecode resolve =>
            Language.ScriptResolution.compiled bytecode resolve
         | .failure errors =>
            Language.ScriptResolution.err
              (Language.compilationErrorMessage "b" errors))) :=
  resolveScriptIdentifier_parent_cycle_guard Language.constantCompileScript
    { scripts := [("a", "b"), ("b", "a")], sourceScriptIds := some ["a", "b"] }
    "b" "a" "a" ["a", "b"] rfl rfl

/-- C5: identifier resolution is deterministic first-match over environment
opcodes, then variable resolution, then script resolution; an identifier
matching none of the three resolves to a failure of type `unknown` with the
exact message `Unknown identifier '{identifier}'.` and no bytecode (the
failure constructor carries none). -/
theorem createIdentifierResolver_first_match :
    ∀ (compileScript : Language.CompileScript)
      (environment : Language.CompilationEnvironment)
      (scriptId : Option String) (identifier : String),
    (∀ bytes, environment.opcodes.lookup identifier = some bytes →
      Language.createIdentifierResolver compileScript environment scriptId
        identifier = .success bytes .opcode) ∧
    (environment.opcodes.lookup identifier = none →
      (∀ value,
        Language.resolveVariableIdentifier environment identifier =
          .bytes value →
        Language.createIdentifierResolver compileScript environment scriptId
          identifier = .success value .variable) ∧
      (∀ message,
        Language.resolveVariableIdentifier environment identifier =
          .err message →
        Language.createIdentifierResolver compileScript environment scriptId
          identifier = .failure message .variable) ∧
      (Language.resolveVariableIdentifier environment identifier =
          .notVariable →
        (∀ bytecode resolve,
          Language.resolveScriptIdentifier compileScript environment
            identifier scriptId = .compiled bytecode resolve →
          Language.createIdentifierResolver compileScript environment scriptId
            identifier = .scriptSuccess bytecode resolve) ∧
        (∀ message,
          Language.resolveScriptIdentifier compileScript environment
            identifier scriptId = .err message →
          Language.createIdentifierResolver compileScript environment scriptId
            identifier = .scriptFailure message identifier) ∧
        (Language.resolveScriptIdentifier compileScript environment identifier
            scriptId = .notScript →
          Language.createIdentifierResolver compileScript environment scriptId
            identifier =
            .failure ("Unknown identifier '" ++ identifier ++ "'.")
              .unknown))) := by
  intro compileScript environment scriptId identifier
  unfold Language.createIdentifierResolver
  refine ⟨?_, ?_⟩
  · intro bytes hb
    rw [hb]
  · intro hnone
    rw [hnone]
    refine ⟨?_, ?_, ?_⟩
    · intro value hv; rw [hv]
    · intro message hm; rw [hm]
    · intro hnv
      rw [hnv]
      refine ⟨?_, ?_, ?_⟩
      · intro bytecode resolve hc; rw [hc]
      · intro message hm; rw [hm]
      · intro hns; rw [hns]

/-! ## Theorems: script reduction -/

theorem foldl_assembleStep (source : List Language.ScriptReductionTraceNode) :
    ∀ (accB : List (List Nat)) (accR : List Range)
      (accE : Option (List Language.ErrorInformation)),
    source.foldl Language.assembleStep (accB, accR, accE) =
      (accB ++ source.map (·.bytecode), accR ++ source.map (·.range),
        if accE.isNone ∧ source.all (fun n => n.errors.isNone) then none
        else some (accE.getD [] ++
          (source.map (fun n => n.errors.getD [])).flatten)) := by
  induction source with
  | nil =>
    intro accB accR accE
    cases accE <;> simp
  | cons s rest ih =>
    intro accB accR accE
    rw [List.foldl_cons, ih]
    cases haccE : accE <;> cases hs : s.errors <;>
      simp [Language.assembleStep, haccE, hs, List.append_assoc]

theorem assembleNode_spec (source : List Language.ScriptReductionTraceNode) :
    (Language.assembleNode source).bytecode =
      (source.map (·.bytecode)).flatten ∧
    (Language.assembleNode source).range =
      mergeRanges (source.map (·.range)) ∧
    (Language.assembleNode source).source = source ∧
    (Language.assembleNode source).errors =
      (if source.all (fun n => n.errors.isNone) then none
       else some ((source.map (fun n => n.errors.getD [])).flatten)) := by
  unfold Language.assembleNode
  rw [foldl_assembleStep]
  simp [Language.ScriptReductionTraceNode.bytecode,
    Language.ScriptReductionTraceNode.range,
    Language.ScriptReductionTraceNode.source,
    Language.ScriptReductionTraceNode.errors]

/-- C7 counterexample: a Push segment whose child list is empty reduces to
the EMPTY bytecode, while `encodeDataPush` applied to the reduced child
bytecode (the empty script reduces to empty bytecode) is `[0x00]` - and no
`encodeDataPush` result is empty. -/
theorem reduceSegment_push_empty_bytecode :
    (Language.reduceSegment (.push [] (mkRange (1, 1) (1, 3))) none
      none).bytecode = [] ∧
    Language.encodeDataPush
      (Language.reduceScript [] none none).bytecode = [0] ∧
    ([] : List Nat) ≠ [0] := by
  refine ⟨?_, rfl, by decide⟩
  simp [Language.reduceSegment, Language.ScriptReductionTraceNode.bytecode]

/-- C7 (amended): for every resolved script, the node `reduceScript` returns
has bytecode equal to the in-order concatenation of its child nodes'
bytecode, range equal to the merge of the child ranges, source equal to the
child nodes, and an errors list equal to the in-order concatenation of the
child error lists, present exactly when at least one child carries one; a
Push segment with a NON-EMPTY child list has bytecode `encodeDataPush`
applied to the reduced child bytecode (a Push with an empty child list
short-circuits to an empty node). -/
theorem reduceScript_concatenation_and_push :
    (∀ (script : List Language.ResolvedSegment)
       (vm : Option Language.StateDebugFunction)
       (createState : Option Language.CreateStateFunction),
      (Language.reduceScript script vm createState).bytecode =
        ((Language.reduceSegments script vm createState).map
          (·.bytecode)).flatten ∧
      (Language.reduceScript script vm createState).range =
        mergeRanges ((Language.reduceSegments script vm createState).map
          (·.range)) ∧
      (Language.reduceScript script vm createState).source =
        Language.reduceSegments script vm createState ∧
      (Language.reduceScript script vm createState).errors =
        (if (Language.reduceSegments script vm createState).all
            (fun n => n.errors.isNone) then none
         else some (((Language.reduceSegments script vm createState).map
           (fun n => n.errors.getD [])).flatten))) ∧
    (∀ (value : List Language.ResolvedSegment) (r : Range)
       (vm : Option Language.StateDebugFunction)
       (createState : Option Language.CreateStateFunction),
      value ≠ [] →
      Language.reduceSegment (.push value r) vm createState =
        .mk (Language.encodeDataPush
            (Language.reduceScript value vm createState).bytecode) r
          (Language.reduceScript value vm createState).errors
          [Language.reduceScript value vm createState] none) := by
  constructor
  · intro script vm createState
    unfold Language.reduceScript
    exact assembleNode_spec _
  · intro value r vm createState hne
    cases value with
    | nil => exact absurd rfl hne
    | cons s rest =>
      simp [Language.reduceSegment, Language.reduceScript]

/-- C6 counterexample: an Evaluation segment with an empty child list and no
VM (and no state factory) supplied reduces to empty bytecode with NO error,
although the claim requires an error whenever the VM or the state factory is
missing. -/
theorem reduceSegment_evaluation_empty_no_error :
    (Language.reduceSegment (.evaluation [] (mkRange (1, 1) (1, 3))) none
      none).errors = none ∧
    (Language.reduceSegment (.evaluation [] (mkRange (1, 1) (1, 3))) none
      none).bytecode = [] := by
  constructor <;>
    simp [Language.reduceSegment, Language.ScriptReductionTraceNode.errors,
      Language.ScriptReductionTraceNode.bytecode]

/-- C6 (amended): reducing an Evaluation segment with a NON-EMPTY child
list: with a VM and a state factory supplied, the child is reduced, its
nodes are sample-evaluated, the child-reduction errors and the evaluation
errors are merged into the segment's error list (the segment then has empty
bytecode), and with no errors the segment's bytecode is the evaluation
result; that result equals the top stack item of the final sampled VM state,
or the empty byte array when that stack is empty. When the VM or the state
factory is missing, the segment reduces to empty bytecode with one error.
(An Evaluation segment with an EMPTY child list short-circuits to an empty
node before the VM check - the correction the counterexample forces.) -/
theorem reduceSegment_evaluation_spec :
    (∀ (value : List Language.ResolvedSegment) (r : Range)
       (v : Language.StateDebugFunction) (f : Language.CreateStateFunction),
      value ≠ [] →
      Language.reduceSegment (.evaluation value r) (some v) (some f) =
        (let reductionTrace := Language.reduceScript value (some v) (some f)
         let evaluated := Language.sampledEvaluateReductionTraceNodes
           reductionTrace.source v f
         let errors := reductionTrace.errors.getD [] ++
           (if evaluated.success then [] else evaluated.errors)
         if errors.length > 0 then
           .mk [] r (some errors) [reductionTrace] (some evaluated.samples)
         else
           .mk evaluated.bytecode r none [reductionTrace]
             (some evaluated.samples))) ∧
    (∀ (value : List Language.ResolvedSegment) (r : Range)
       (vm : Option Language.StateDebugFunction)
       (createState : Option Language.CreateStateFunction),
      value ≠ [] → (vm = none ∨ createState = none) →
      Language.reduceSegment (.evaluation value r) vm createState =
        .mk [] r
          (some [⟨"Both a VM and a createState method are required to reduce evaluations.",
            r⟩]) [] none) ∧
    (∀ (nodes : List Language.ScriptReductionTraceNode)
       (v : Language.StateDebugFunction) (f : Language.CreateStateFunction),
      (Language.sampledEvaluateReductionTraceNodes nodes v f).success =
        true →
      (Language.sampledEvaluateReductionTraceNodes nodes v f).samples ≠ [] ∧
      (Language.sampledEvaluateReductionTraceNodes nodes v f).bytecode =
        ((((Language.sampledEvaluateReductionTraceNodes nodes v
          f).samples.getLastD (mkRange (0, 0) (0, 0), none)).2.getD
            {}).stack.getLast?).getD []) := by
  refine ⟨?_, ?_, ?_⟩
  · intro value r v f hne
    cases value with
    | nil => exact absurd rfl hne
    | cons s rest =>
      simp [Language.reduceSegment, Language.reduceScript]
  · intro value r vm createState hne hor
    cases value with
    | nil => exact absurd rfl hne
    | cons s rest =>
      rcases hor with h | h
      · subst h
        cases createState <;> simp [Language.reduceSegment]
      · subst h
        cases vm <;> simp [Language.reduceSegment]
  · intro nodes v f hsuccess
    unfold Language.sampledEvaluateReductionTraceNodes at *
    by_cases hcond : (Language.aggregatedParseReductionTraceNodes
        nodes).incomplete.isNone = true ∧
        (Language.evaluateInstructionAggregations
          (Language.aggregatedParseReductionTraceNodes nodes).aggregations v
          f).success = true
    · simp only [if_pos hcond]
      by_cases hlen : 0 < (Language.evaluateInstructionAggregations
          (Language.aggregatedParseReductionTraceNodes nodes).aggregations v
          f).samples.length
      · simp only [if_pos hlen]
        constructor
        · intro hnil
          rw [hnil] at hlen
          simp at hlen
        · trivial
      · simp only [if_neg hlen]
        exact ⟨by simp, by trivial⟩
    · rw [if_neg hcond] at hsuccess
      simp at hsuccess

end Libauth
